import Mathlib

/-!
Shallow embedding of the stock-price dashboard script `src/main.py` and
verification of its specification.

The script fetches daily OHLCV (open/high/low/close/volume) rows for a ticker
from an external market-data provider, derives summary statistics and two
simple moving averages, shows a table sorted by date descending, and offers a
CSV download encoded as UTF-8 with a byte-order mark.

Modelling conventions:
* prices are rationals (`ℚ`), volumes and date keys are integers;
* the external provider (`yf.Ticker(...).history` / `.info`) is opaque: per
  the spec it yields OHLCV rows plus optional `longName`/`shortName` metadata,
  and any transport/parse failure is a stringified exception.  Fetch outcomes
  are passed in as `Except`/function parameters;
* `pandas` primitives are translated to their documented semantics:
  `iloc[-k]` is indexing from the end, `rolling(window=w).mean()` yields
  `none` for the first `w - 1` positions and the trailing window mean after,
  `.max()`/`.min()` fold the column, `round(2)` rounds to two decimals,
  `sort_index(ascending=False)` sorts rows by the date key descending, and
  `to_csv(index=True)` emits a header line followed by one comma-separated
  line per row, each line terminated by a newline, `NaN` cells empty;
* `.encode('utf-8-sig')` prepends the bytes `EF BB BF` to the UTF-8 encoding.
-/

namespace StockApp

/-- One fetched row of the price series: the date key of the row's index entry
and the OHLCV fields (`main.py` renders the frame returned by
`stock.history(start=..., end=...)`).  Dates are strictly increasing within a
fetch, so the key is modelled as an integer. -/
structure Row where
  date : Int
  «open» : ℚ
  high : ℚ
  low : ℚ
  close : ℚ
  volume : Int
  deriving DecidableEq

/-- The `Close` column of a series, `data['Close']`. -/
def closes (data : List Row) : List ℚ := data.map Row.close

/-- Pandas negative indexing `xs.iloc[-k]` (total, with junk default `0`;
the script only evaluates it when the series is long enough). -/
def ilocNeg (xs : List ℚ) (k : Nat) : ℚ := xs.getD (xs.length - k) 0

/-- Line 92: `latest_price = data['Close'].iloc[-1]`. -/
def latest_price (data : List Row) : ℚ := ilocNeg (closes data) 1

/-- Line 93: `price_change = data['Close'].iloc[-1] - data['Close'].iloc[-2]
if len(data) > 1 else 0`. -/
def price_change (data : List Row) : ℚ :=
  if 1 < data.length then ilocNeg (closes data) 1 - ilocNeg (closes data) 2 else 0

/-- Line 94: `price_change_pct = (price_change / data['Close'].iloc[-2] * 100)
if len(data) > 1 else 0`. -/
def price_change_pct (data : List Row) : ℚ :=
  if 1 < data.length then price_change data / ilocNeg (closes data) 2 * 100 else 0

/-- Fold of pandas `Series.max()`: the greatest element of a column, `none`
on an empty column. -/
def seriesMax : List ℚ → Option ℚ
  | [] => none
  | x :: xs =>
    some (match seriesMax xs with
      | none => x
      | some m => max x m)

/-- Fold of pandas `Series.min()`: the least element of a column, `none`
on an empty column. -/
def seriesMin : List ℚ → Option ℚ
  | [] => none
  | x :: xs =>
    some (match seriesMin xs with
      | none => x
      | some m => min x m)

/-- Line 101: `data['High'].max()`. -/
def periodHigh (data : List Row) : Option ℚ := seriesMax (data.map Row.high)

/-- Line 103: `data['Low'].min()`. -/
def periodLow (data : List Row) : Option ℚ := seriesMin (data.map Row.low)

/-- The window of closes ending at row `i` used by
`rolling(window=w).mean()` at position `i`. -/
def windowSlice (w i : Nat) (xs : List ℚ) : List ℚ := (xs.drop (i + 1 - w)).take w

/-- Pandas `Series.rolling(window=w).mean()` (default `min_periods = w`):
position `i` holds `NaN` (modelled `none`) until a full window of `w`
values is available, and the unweighted mean of the trailing window after. -/
def rollingMean (w : Nat) (xs : List ℚ) : List (Option ℚ) :=
  (List.range xs.length).map fun i =>
    if w ≤ i + 1 then some ((windowSlice w i xs).sum / (w : ℚ)) else none

/-- Line 155: `data['MA5'] = data['Close'].rolling(window=5).mean()`. -/
def MA5 (data : List Row) : List (Option ℚ) := rollingMean 5 (closes data)

/-- Line 156: `data['MA25'] = data['Close'].rolling(window=25).mean()`. -/
def MA25 (data : List Row) : List (Option ℚ) := rollingMean 25 (closes data)

/-- A row of `data` after the `MA5`/`MA25` column assignments of lines
155–156: the fetched row plus the two optional moving-average cells. -/
structure DRow where
  row : Row
  ma5 : Option ℚ
  ma25 : Option ℚ
  deriving DecidableEq

/-- The stored frame `data` after lines 155–156 added the `MA5` and `MA25`
columns: each fetched row paired with its moving-average cells. -/
def derive (data : List Row) : List DRow :=
  (data.zip ((MA5 data).zip (MA25 data))).map fun p => ⟨p.1, p.2.1, p.2.2⟩

/-- Pandas `round(2)`: round to two decimal places. -/
def round2 (q : ℚ) : ℚ := ((round (q * 100) : ℤ) : ℚ) / 100

/-- Lines 185–188: the numeric display columns (`始値`, `高値`, `安値`, `終値`,
`5日移動平均`, `25日移動平均`) rounded to two decimals; `出来高` (volume) is not
in `numeric_columns` and the date index is untouched. -/
def roundRow (d : DRow) : DRow :=
  ⟨⟨d.row.date, round2 d.row.«open», round2 d.row.high, round2 d.row.low,
    round2 d.row.close, d.row.volume⟩,
   d.ma5.map round2, d.ma25.map round2⟩

/-- Lines 178–182: the display labels of the exported columns, with the
index label `Date` first (`to_csv(index=True)` writes the index name).
The fetched frame has no `Adj Close` column under the provider's default
auto-adjustment, so the conditional drop of line 177 removes nothing. -/
def displayHeader : List String :=
  ["Date", "始値", "高値", "安値", "終値", "出来高", "5日移動平均", "25日移動平均"]

/-- Ordering used by line 191, `sort_index(ascending=False)`: row `a` comes
before row `b` when `a`'s date key is the larger. -/
def dateDescOrder (a b : DRow) : Prop := b.row.date ≤ a.row.date

instance : DecidableRel dateDescOrder :=
  fun a b => inferInstanceAs (Decidable (b.row.date ≤ a.row.date))

instance : IsTotal DRow dateDescOrder :=
  ⟨fun a b => le_total b.row.date a.row.date⟩

instance : IsTrans DRow dateDescOrder :=
  ⟨fun _ _ _ h1 h2 => le_trans h2 h1⟩

/-- Line 191: `display_data_sorted = display_data.sort_index(ascending=False)`. -/
def sortDisplay (l : List DRow) : List DRow := List.insertionSort dateDescOrder l

/-- Lines 176–188: `display_data = data.copy()` followed by the conditional
`Adj Close` drop (a no-op on the modelled OHLCV frame), the renaming to the
display labels (reflected in `displayHeader`), and the two-decimal rounding. -/
def display_data (data : List DRow) : List DRow := data.map roundRow

/-- Lines 176–191: the rows of the displayed/exported table, rounded and
sorted by date descending. -/
def display_data_sorted (data : List DRow) : List DRow := sortDisplay (display_data data)

/-- Decimal digit `d` as a character (`d + 48` is the code point of `'0' + d`). -/
def digitChar (d : Nat) : Char := Char.ofNat (d + 48)

/-- Decimal rendering of a natural number (most significant digit first). -/
def natChars (n : Nat) : List Char :=
  if n = 0 then ['0'] else ((Nat.digits 10 n).map digitChar).reverse

/-- Decimal rendering of an integer, as `str` renders Python ints. -/
def intChars (i : Int) : List Char :=
  if i < 0 then '-' :: natChars i.natAbs else natChars i.natAbs

/-- Rendering of a two-decimal float cell: the value `round2 q` written with
exactly two digits after the decimal point. -/
def q2Chars (q : ℚ) : List Char :=
  let n : Int := round (q * 100)
  (if n < 0 then ['-'] else []) ++ natChars (n.natAbs / 100) ++
    ('.' :: [digitChar (n.natAbs % 100 / 10), digitChar (n.natAbs % 10)])

/-- A `NaN` cell (undefined moving average) is written as an empty field by
`to_csv`; a defined cell is written as its two-decimal rendering. -/
def optQ2Chars : Option ℚ → List Char
  | none => []
  | some q => q2Chars q

/-- The comma-separated cells of one exported row, in column order
`Date, 始値, 高値, 安値, 終値, 出来高, 5日移動平均, 25日移動平均`. -/
def rowCells (d : DRow) : List (List Char) :=
  [intChars d.row.date, q2Chars d.row.«open», q2Chars d.row.high,
   q2Chars d.row.low, q2Chars d.row.close, intChars d.row.volume,
   optQ2Chars d.ma5, optQ2Chars d.ma25]

/-- The header cells of the exported CSV. -/
def headerCells : List (List Char) := displayHeader.map String.data

/-- One CSV line: the cells joined by commas. -/
def lineChars (cells : List (List Char)) : List Char := [','].intercalate cells

/-- Line 197, `display_data_sorted.to_csv(index=True)`: the header line
followed by one line per displayed row, each line newline-terminated. -/
def csvChars (data : List DRow) : List Char :=
  ((headerCells :: (display_data_sorted data).map rowCells).map
    (fun l => lineChars l ++ ['\n'])).flatten

/-- The CSV text of the export. -/
def csvText (data : List DRow) : String := String.mk (csvChars data)

/-- Python `.encode('utf-8-sig')`: the byte-order mark `EF BB BF` followed by
the UTF-8 encoding of the text. -/
def utf8sig (s : String) : List Nat :=
  0xEF :: 0xBB :: 0xBF :: (s.toUTF8.toList.map (fun b => b.toNat))

/-- Line 201: `file_name=f'{ticker_symbol}_{start_date}_to_{end_date}.csv'`
(the date keys rendered in their canonical decimal form). -/
def fileName (ticker : String) (start_date end_date : Int) : String :=
  ticker ++ "_" ++ String.mk (intChars start_date) ++ "_to_" ++
    String.mk (intChars end_date) ++ ".csv"

/-- Line 28: the domain error for an empty provider result. -/
def noDataMsg : String := "データが見つかりませんでした。銘柄コードや期間を確認してください。"

/-- Line 36: the label prepended to a stringified provider exception. -/
def errLabel : String := "データ取得エラー: "

/-- Lines 20–36, `get_stock_data`: the provider interaction is passed in as
`hist` (the `stock.history` call: either rows or a stringified exception) and
`info` (the `stock.info` metadata lookup: optional `longName`/`shortName`, or
a stringified exception; it is only reached once `hist` returned a non-empty
frame).  Returns `(data, company_name)` on success and `(none, message)` on
an empty result or any exception, mirroring the single `try/except`. -/
def get_stock_data (hist : Except String (List Row))
    (info : Except String (Option String × Option String)) (ticker : String) :
    Option (List Row) × String :=
  match hist with
  | .error e => (none, errLabel ++ e)
  | .ok data =>
    if data.isEmpty then (none, noDataMsg)
    else
      match info with
      | .error e => (none, errLabel ++ e)
      | .ok (longName, shortName) =>
        (some data, longName.getD (shortName.getD ticker))

/-- Everything the success branch of the main screen (lines 84–207) produces:
the header name, the four summary metrics, the stored frame after the MA
assignments, the displayed (rounded, date-descending) table, the CSV download
bytes and its file name. -/
structure RenderState where
  companyName : String
  latestPrice : ℚ
  priceChange : ℚ
  priceChangePct : ℚ
  highShown : Option ℚ
  lowShown : Option ℚ
  stored : List DRow
  displayed : List DRow
  csv : List Nat
  file : String
  deriving DecidableEq

/-- The success branch of the main screen (lines 84–207) for a fetched series
`rows` and resolved company name `name`. -/
def runSuccess (rows : List Row) (name ticker : String)
    (start_date end_date : Int) : RenderState :=
  ⟨name, latest_price rows, price_change rows, price_change_pct rows,
   periodHigh rows, periodLow rows, derive rows,
   display_data_sorted (derive rows), utf8sig (csvText (derive rows)),
   fileName ticker start_date end_date⟩

/-- What one render cycle ends as: stopped by date validation (line 70),
the empty-ticker help screen (lines 209–233), the fetch-error screen
(lines 81–83), or the success screen. -/
inductive Outcome where
  | validationError
  | help
  | fetchError (msg : String)
  | success (st : RenderState)
  deriving DecidableEq

/-- The observable behaviour of the (cached) fetch for given
`(ticker, start, end)`: either `(some rows, company_name)` or
`(none, error_message)`. -/
abbrev FetchFun := String → Int → Int → Option (List Row) × String

/-- Lines 68–233, one render cycle of the script, for the processed ticker
input `ticker_symbol` (the widget value after `.upper().strip()`, which maps
an empty input to the empty string): `st.stop()` when `start_date >=
end_date`; otherwise, Python's truthiness test `if ticker_symbol:` sends the
empty ticker to the help screen without calling the fetch; otherwise the
fetch runs and its outcome selects the error or success screen.  (The
company-name guard of line 86 always takes its first branch, the fetch's
second component being a string.)  The future-end-date warning of lines 72–73
does not halt and is not modelled. -/
def render (ticker_symbol : String) (start_date end_date : Int)
    (fetch : FetchFun) : Outcome :=
  if start_date ≥ end_date then Outcome.validationError
  else if ticker_symbol = "" then Outcome.help
  else
    match fetch ticker_symbol start_date end_date with
    | (none, msg) => Outcome.fetchError msg
    | (some rows, name) =>
      Outcome.success (runSuccess rows name ticker_symbol start_date end_date)

/-- A sample row used to instantiate theorems with hypotheses. -/
def wRow (c : ℚ) : Row := ⟨0, 1, 2, 1, c, 10⟩

/-- A sample fetch behaviour used to instantiate theorems with hypotheses. -/
def wFetch : FetchFun := fun _ _ _ => (none, "")

/-- The property of the two moving-average columns at row `i` claimed by the
spec: the cell is defined exactly when the trailing window is full (`i ≥ 4`
for `MA5`, `i ≥ 24` for `MA25`) and then holds the unweighted mean of the
closes `close[i-4..i]` (resp. `close[i-24..i]`). -/
def maProp (rows : List Row) (i : Nat) : Prop :=
  ((MA5 rows).getD i none ≠ none ↔ 4 ≤ i) ∧
  (4 ≤ i →
    (MA5 rows).getD i none =
      some ((((closes rows).drop (i - 4)).take 5).sum /
        (((((closes rows).drop (i - 4)).take 5).length : ℕ) : ℚ)) ∧
    (((closes rows).drop (i - 4)).take 5).length = 5) ∧
  ((MA25 rows).getD i none ≠ none ↔ 24 ≤ i) ∧
  (24 ≤ i →
    (MA25 rows).getD i none =
      some ((((closes rows).drop (i - 24)).take 25).sum /
        (((((closes rows).drop (i - 24)).take 25).length : ℕ) : ℚ)) ∧
    (((closes rows).drop (i - 24)).take 25).length = 25)

/-- Numeric value of a decimal digit character. -/
def charVal (c : Char) : Nat := c.toNat - 48

/-- Parse a non-empty all-digit cell back to a natural number. -/
def parseNatChars (l : List Char) : Option Nat :=
  if l ≠ [] ∧ l.all Char.isDigit then
    some (Nat.ofDigits 10 ((l.map charVal).reverse))
  else none

/-- Parse an optionally `-`-signed integer cell. -/
def parseIntChars : List Char → Option Int
  | [] => none
  | c :: rest =>
    if c = '-' then (parseNatChars rest).map (fun n : Nat => -(n : Int))
    else (parseNatChars (c :: rest)).map (fun n : Nat => (n : Int))

/-- Parse the unsigned part of a two-decimal cell: an integer part, a point,
and exactly two fraction digits. -/
def parseQ2Body (body : List Char) : Option ℚ :=
  match body.dropWhile (fun x => x != '.') with
  | '.' :: fr =>
    match parseNatChars (body.takeWhile (fun x => x != '.')),
        parseNatChars fr with
    | some a, some b =>
      if fr.length = 2 then some ((a : ℚ) + (b : ℚ) / 100) else none
    | _, _ => none
  | _ => none

/-- Parse a two-decimal cell, with an optional leading minus sign. -/
def parseQ2Chars : List Char → Option ℚ
  | [] => none
  | c :: rest =>
    if c = '-' then (parseQ2Body rest).map (fun q => -q)
    else parseQ2Body (c :: rest)

/-- Parse a moving-average cell: the empty field is an undefined value. -/
def parseOptQ2 (l : List Char) : Option (Option ℚ) :=
  if l = [] then some none else (parseQ2Chars l).map some

/-- Parse the eight cells of one CSV data line back into a displayed row. -/
def parseRow (cells : List (List Char)) : Option DRow :=
  match cells with
  | [c0, c1, c2, c3, c4, c5, c6, c7] =>
    match parseIntChars c0, parseQ2Chars c1, parseQ2Chars c2, parseQ2Chars c3,
        parseQ2Chars c4, parseIntChars c5, parseOptQ2 c6, parseOptQ2 c7 with
    | some dt, some o, some h, some lo, some cl, some v, some m5, some m25 =>
      some ⟨⟨dt, o, h, lo, cl, v⟩, m5, m25⟩
    | _, _, _, _, _, _, _, _ => none
  | _ => none

/-- Collect a list of parsed rows, failing if any row failed. -/
def sequenceOpt : List (Option DRow) → Option (List DRow)
  | [] => some []
  | none :: _ => none
  | some a :: rest => (sequenceOpt rest).map (fun l => a :: l)

/-- Parse a CSV text produced by the export back into its rows: split into
newline-terminated lines, drop the header line, split each remaining line at
commas and decode its cells. -/
def parseCsv (s : String) : Option (List DRow) :=
  match (List.splitOn '\n' s.data).dropLast with
  | [] => none
  | _ :: rowLines =>
    sequenceOpt (rowLines.map (fun r => parseRow (List.splitOn ',' r)))

/-! ### Helper lemmas -/

/-- `iloc[-k]` on the close column, written through optional indexing. -/
lemma ilocNeg_eq (rows : List Row) (k : Nat) :
    ilocNeg (closes rows) k = ((rows[rows.length - k]?).map Row.close).getD 0 := by
  simp [ilocNeg, closes, List.getD_eq_getElem?_getD, List.getElem?_map]

lemma seriesMax_eq_none_iff (l : List ℚ) : seriesMax l = none ↔ l = [] := by
  cases l <;> simp [seriesMax]

lemma seriesMin_eq_none_iff (l : List ℚ) : seriesMin l = none ↔ l = [] := by
  cases l <;> simp [seriesMin]

lemma seriesMax_spec (l : List ℚ) (h : l ≠ []) :
    ∃ m, seriesMax l = some m ∧ m ∈ l ∧ ∀ x ∈ l, x ≤ m := by
  induction l with
  | nil => exact absurd rfl h
  | cons a t ih =>
    cases ht : seriesMax t with
    | none =>
      have h0 : t = [] := (seriesMax_eq_none_iff t).mp ht
      subst h0
      exact ⟨a, by simp [seriesMax], by simp, by simp⟩
    | some m =>
      obtain ⟨m', hm', hmem, hall⟩ :=
        ih (by intro he; subst he; simp [seriesMax] at ht)
      rw [hm'] at ht
      injection ht with he
      subst he
      refine ⟨max a m', by simp [seriesMax, hm'], ?_, ?_⟩
      · rcases max_choice a m' with hEq | hEq <;> rw [hEq]
        · exact List.mem_cons_self a t
        · exact List.mem_cons_of_mem a hmem
      · intro x hx
        rcases List.mem_cons.mp hx with rfl | hx
        · exact le_max_left _ _
        · exact le_trans (hall x hx) (le_max_right _ _)

lemma seriesMin_spec (l : List ℚ) (h : l ≠ []) :
    ∃ m, seriesMin l = some m ∧ m ∈ l ∧ ∀ x ∈ l, m ≤ x := by
  induction l with
  | nil => exact absurd rfl h
  | cons a t ih =>
    cases ht : seriesMin t with
    | none =>
      have h0 : t = [] := (seriesMin_eq_none_iff t).mp ht
      subst h0
      exact ⟨a, by simp [seriesMin], by simp, by simp⟩
    | some m =>
      obtain ⟨m', hm', hmem, hall⟩ :=
        ih (by intro he; subst he; simp [seriesMin] at ht)
      rw [hm'] at ht
      injection ht with he
      subst he
      refine ⟨min a m', by simp [seriesMin, hm'], ?_, ?_⟩
      · rcases min_choice a m' with hEq | hEq <;> rw [hEq]
        · exact List.mem_cons_self a t
        · exact List.mem_cons_of_mem a hmem
      · intro x hx
        rcases List.mem_cons.mp hx with rfl | hx
        · exact min_le_left _ _
        · exact le_trans (min_le_right _ _) (hall x hx)

lemma rollingMean_getD (w : Nat) (xs : List ℚ) (i : Nat) (hi : i < xs.length) :
    (rollingMean w xs).getD i none =
      if w ≤ i + 1 then some ((windowSlice w i xs).sum / (w : ℚ)) else none := by
  have hlen : i < (rollingMean w xs).length := by simpa [rollingMean] using hi
  rw [List.getD_eq_getElem _ _ hlen]
  simp [rollingMean]

lemma windowSlice_len (w i : Nat) (xs : List ℚ) (hi : i < xs.length)
    (hw : w ≤ i + 1) : (windowSlice w i xs).length = w := by
  rw [windowSlice, List.length_take, List.length_drop,
    inf_eq_left.mpr (by omega)]

lemma derive_map_row (rows : List Row) : (derive rows).map DRow.row = rows := by
  have h1 : (MA5 rows).length = rows.length := by simp [MA5, rollingMean, closes]
  have h2 : (MA25 rows).length = rows.length := by simp [MA25, rollingMean, closes]
  rw [derive, List.map_map]
  have hcomp : (DRow.row ∘ fun p : Row × (Option ℚ × Option ℚ) =>
      (⟨p.1, p.2.1, p.2.2⟩ : DRow)) = Prod.fst := rfl
  rw [hcomp]
  exact List.map_fst_zip _ _ (by simp [h1, h2])

lemma isDigit_digitChar {d : Nat} (hd : d < 10) : (digitChar d).isDigit = true := by
  interval_cases d <;> decide

lemma charVal_digitChar {d : Nat} (hd : d < 10) : charVal (digitChar d) = d := by
  interval_cases d <;> decide

lemma isDigit_ne_special {c : Char} (h : c.isDigit = true) :
    c ≠ ',' ∧ c ≠ '\n' ∧ c ≠ '.' ∧ c ≠ '-' := by
  refine ⟨?_, ?_, ?_, ?_⟩ <;> (intro he; subst he; simp at h)

lemma natChars_all_digit (n : Nat) : ∀ c ∈ natChars n, c.isDigit = true := by
  intro c hc
  rw [natChars] at hc
  split_ifs at hc with h0
  · simp at hc
    subst hc
    decide
  · rw [List.mem_reverse, List.mem_map] at hc
    obtain ⟨d, hd, rfl⟩ := hc
    exact isDigit_digitChar (Nat.digits_lt_base (by norm_num) hd)

lemma natChars_ne_nil (n : Nat) : natChars n ≠ [] := by
  rw [natChars]
  split_ifs with h
  · simp
  · simp [Nat.digits_ne_nil_iff_ne_zero.mpr h]

lemma parseNat_natChars (n : Nat) : parseNatChars (natChars n) = some n := by
  have hcond : natChars n ≠ [] ∧ (natChars n).all Char.isDigit :=
    ⟨natChars_ne_nil n, List.all_eq_true.mpr (natChars_all_digit n)⟩
  rw [parseNatChars, if_pos hcond]
  congr 1
  by_cases h0 : n = 0
  · subst h0
    decide
  · rw [natChars, if_neg h0, List.map_reverse, List.reverse_reverse,
      List.map_map]
    have hcongr : ∀ d ∈ Nat.digits 10 n, (charVal ∘ digitChar) d = id d :=
      fun d hd => charVal_digitChar (Nat.digits_lt_base (by norm_num) hd)
    rw [List.map_congr_left hcongr, List.map_id]
    exact Nat.ofDigits_digits 10 n

lemma mem_intChars (i : Int) : ∀ c ∈ intChars i, c = '-' ∨ c.isDigit = true := by
  intro c hc
  rw [intChars] at hc
  split_ifs at hc
  · rcases List.mem_cons.mp hc with rfl | hc
    · exact Or.inl rfl
    · exact Or.inr (natChars_all_digit _ _ hc)
  · exact Or.inr (natChars_all_digit _ _ hc)

lemma parseInt_intChars (i : Int) : parseIntChars (intChars i) = some i := by
  rw [intChars]
  split_ifs with h
  · have hne := natChars_ne_nil i.natAbs
    obtain ⟨c, l, hcl⟩ := List.exists_cons_of_ne_nil hne
    rw [hcl, parseIntChars, if_pos rfl, ← hcl, parseNat_natChars]
    simp only [Option.map_some']
    congr 1
    omega
  · have hne := natChars_ne_nil i.natAbs
    obtain ⟨c, l, hcl⟩ := List.exists_cons_of_ne_nil hne
    have hcd : c.isDigit = true :=
      natChars_all_digit _ c (hcl ▸ List.mem_cons_self c l)
    rw [hcl, parseIntChars, if_neg (isDigit_ne_special hcd).2.2.2, ← hcl,
      parseNat_natChars]
    simp only [Option.map_some']
    congr 1
    omega

lemma mem_q2Chars (q : ℚ) :
    ∀ c ∈ q2Chars q, c = '-' ∨ c = '.' ∨ c.isDigit = true := by
  intro c hc
  simp only [q2Chars, List.mem_append, List.mem_cons, List.mem_singleton] at hc
  rcases hc with (hc | hc) | (rfl | hc)
  · split_ifs at hc
    · simp at hc
      exact Or.inl hc
    · simp at hc
  · exact Or.inr (Or.inr (natChars_all_digit _ _ hc))
  · exact Or.inr (Or.inl rfl)
  · rcases hc with rfl | rfl | hc
    · exact Or.inr (Or.inr (isDigit_digitChar (by omega)))
    · exact Or.inr (Or.inr (isDigit_digitChar (by omega)))
    · simp at hc

lemma q2Chars_ne_nil (q : ℚ) : q2Chars q ≠ [] := by
  simp [q2Chars]

lemma mem_optQ2Chars (o : Option ℚ) :
    ∀ c ∈ optQ2Chars o, c = '-' ∨ c = '.' ∨ c.isDigit = true := by
  cases o with
  | none => intro c hc; simp [optQ2Chars] at hc
  | some q => exact mem_q2Chars q

lemma cellChar_ne_sep {c : Char} (h : c = '-' ∨ c = '.' ∨ c.isDigit = true) :
    c ≠ ',' ∧ c ≠ '\n' := by
  rcases h with rfl | rfl | h
  · exact ⟨by decide, by decide⟩
  · exact ⟨by decide, by decide⟩
  · exact ⟨(isDigit_ne_special h).1, (isDigit_ne_special h).2.1⟩

lemma takeWhile_dropWhile_split {p : Char → Bool} :
    ∀ (xs : List Char) (ys : List Char) (y : Char),
      (∀ c ∈ xs, p c = true) → p y = false →
      (xs ++ y :: ys).takeWhile p = xs ∧
        (xs ++ y :: ys).dropWhile p = y :: ys := by
  intro xs
  induction xs with
  | nil =>
    intro ys y _ hy
    simp [List.takeWhile_cons, List.dropWhile_cons, hy]
  | cons x xs ih =>
    intro ys y hall hy
    have hx : p x = true := hall x (List.mem_cons_self _ _)
    obtain ⟨ih1, ih2⟩ := ih ys y (fun c hc => hall c (List.mem_cons_of_mem _ hc)) hy
    constructor
    · simp [List.takeWhile_cons, hx, ih1]
    · simp [List.dropWhile_cons, hx, ih2]

lemma parseQ2Body_eq (a b : Nat) (hb : b < 100) :
    parseQ2Body (natChars a ++
        '.' :: [digitChar (b / 10), digitChar (b % 10)]) =
      some ((a : ℚ) + (b : ℚ) / 100) := by
  have hall : ∀ c ∈ natChars a, (c != '.') = true := by
    intro c hc
    simpa [bne_iff_ne] using
      (isDigit_ne_special (natChars_all_digit a c hc)).2.2.1
  have hdot : (('.' : Char) != '.') = false := by decide
  obtain ⟨htake, hdrop⟩ :=
    takeWhile_dropWhile_split (natChars a)
      [digitChar (b / 10), digitChar (b % 10)] '.' hall hdot
  have h1 : b / 10 < 10 := by omega
  have h2 : b % 10 < 10 := by omega
  have hfr : parseNatChars [digitChar (b / 10), digitChar (b % 10)] = some b := by
    have hcond : ([digitChar (b / 10), digitChar (b % 10)] : List Char) ≠ [] ∧
        ([digitChar (b / 10), digitChar (b % 10)]).all Char.isDigit :=
      ⟨by simp, by simp [isDigit_digitChar h1, isDigit_digitChar h2]⟩
    rw [parseNatChars, if_pos hcond]
    simp only [List.map_cons, List.map_nil, List.reverse_cons,
      List.reverse_nil, List.nil_append, List.cons_append,
      charVal_digitChar h1, charVal_digitChar h2,
      Nat.ofDigits_cons, Nat.ofDigits_nil]
    congr 1
    omega
  rw [parseQ2Body, hdrop, htake]
  simp only [parseNat_natChars, hfr]
  rfl

lemma round2_idem (q : ℚ) : round2 (round2 q) = round2 q := by
  rw [round2, round2]
  have hc : ((round (q * 100) : ℤ) : ℚ) / 100 * 100 = ((round (q * 100) : ℤ) : ℚ) :=
    div_mul_cancel₀ _ (by norm_num)
  rw [hc, round_intCast]

lemma natAbs_div_mod_value (n : Int) :
    ((n.natAbs / 100 : ℕ) : ℚ) + ((n.natAbs % 100 : ℕ) : ℚ) / 100 =
      ((n.natAbs : ℕ) : ℚ) / 100 := by
  have h100 : (100 : ℕ) * (n.natAbs / 100) + n.natAbs % 100 = n.natAbs :=
    Nat.div_add_mod _ _
  have hcast : (100 : ℚ) * ((n.natAbs / 100 : ℕ) : ℚ) + ((n.natAbs % 100 : ℕ) : ℚ) =
      ((n.natAbs : ℕ) : ℚ) := by exact_mod_cast congrArg (Nat.cast : ℕ → ℚ) h100
  field_simp
  linarith

lemma parseQ2_q2Chars (q : ℚ) : parseQ2Chars (q2Chars q) = some (round2 q) := by
  have hmod : (round (q * 100)).natAbs % 10 =
      (round (q * 100)).natAbs % 100 % 10 :=
    (Nat.mod_mod_of_dvd _ (by norm_num)).symm
  have hb : (round (q * 100)).natAbs % 100 < 100 := Nat.mod_lt _ (by norm_num)
  have hbody := parseQ2Body_eq ((round (q * 100)).natAbs / 100)
    ((round (q * 100)).natAbs % 100) hb
  have hval : (((round (q * 100)).natAbs / 100 : ℕ) : ℚ) +
      (((round (q * 100)).natAbs % 100 : ℕ) : ℚ) / 100 =
      (((round (q * 100)).natAbs : ℕ) : ℚ) / 100 := natAbs_div_mod_value _
  by_cases hneg : round (q * 100) < 0
  · have hq : q2Chars q = '-' ::
        (natChars ((round (q * 100)).natAbs / 100) ++
          '.' :: [digitChar ((round (q * 100)).natAbs % 100 / 10),
            digitChar ((round (q * 100)).natAbs % 100 % 10)]) := by
      rw [q2Chars]
      simp only [if_pos hneg, List.singleton_append, ← hmod,
        List.cons_append, List.append_assoc, List.nil_append]
    rw [hq, parseQ2Chars, if_pos rfl, hbody]
    simp only [Option.map_some']
    rw [round2, hval]
    congr 1
    rw [Int.cast_natAbs, abs_of_neg hneg, Int.cast_neg]
    ring
  · have hq : q2Chars q =
        natChars ((round (q * 100)).natAbs / 100) ++
          '.' :: [digitChar ((round (q * 100)).natAbs % 100 / 10),
            digitChar ((round (q * 100)).natAbs % 100 % 10)] := by
      rw [q2Chars]
      simp only [if_neg hneg, List.nil_append, ← hmod,
        List.cons_append, List.append_assoc]
    obtain ⟨c, l, hcl⟩ :=
      List.exists_cons_of_ne_nil (natChars_ne_nil ((round (q * 100)).natAbs / 100))
    have hcd : c.isDigit = true :=
      natChars_all_digit _ c (hcl ▸ List.mem_cons_self c l)
    rw [hq, hcl, List.cons_append, parseQ2Chars,
      if_neg (isDigit_ne_special hcd).2.2.2, ← List.cons_append, ← hcl, hbody]
    rw [round2, hval]
    congr 1
    rw [Int.cast_natAbs, abs_of_nonneg (not_lt.mp hneg)]

lemma parseOptQ2_round (o : Option ℚ) :
    parseOptQ2 (optQ2Chars (o.map round2)) = some (o.map round2) := by
  cases o with
  | none => rfl
  | some q =>
    rw [Option.map_some']
    rw [optQ2Chars, parseOptQ2, if_neg (q2Chars_ne_nil _), parseQ2_q2Chars,
      round2_idem]
    rfl

lemma parseRow_roundRow (d : DRow) :
    parseRow (rowCells (roundRow d)) = some (roundRow d) := by
  obtain ⟨⟨dt, o, hgh, lw, cl, vol⟩, m5, m25⟩ := d
  rw [roundRow]
  simp only [rowCells, parseRow, parseInt_intChars, parseQ2_q2Chars,
    round2_idem, parseOptQ2_round]

lemma intercalate_cons₂ {α : Type} (s a b : List α) (l : List (List α)) :
    s.intercalate (a :: b :: l) = a ++ s ++ s.intercalate (b :: l) := by
  simp [List.intercalate]

lemma intercalate_single {α : Type} (s a : List α) : s.intercalate [a] = a := by
  simp [List.intercalate]

lemma mem_lineChars :
    ∀ (cells : List (List Char)) (c : Char), c ∈ lineChars cells →
      c = ',' ∨ ∃ cell ∈ cells, c ∈ cell := by
  intro cells
  induction cells with
  | nil =>
    intro c hc
    simp [lineChars, List.intercalate] at hc
  | cons a t ih =>
    intro c hc
    cases t with
    | nil =>
      rw [lineChars, intercalate_single] at hc
      exact Or.inr ⟨a, by simp, hc⟩
    | cons b t2 =>
      rw [lineChars, intercalate_cons₂] at hc
      rcases List.mem_append.mp hc with h1 | h2
      · rcases List.mem_append.mp h1 with h1a | h1b
        · exact Or.inr ⟨a, by simp, h1a⟩
        · exact Or.inl (by simpa using h1b)
      · rcases ih c h2 with h | ⟨cell, hcell, hcc⟩
        · exact Or.inl h
        · exact Or.inr ⟨cell, List.mem_cons_of_mem _ hcell, hcc⟩

lemma flatten_lines_eq (ls : List (List Char)) :
    (ls.map (fun l => l ++ ['\n'])).flatten = ['\n'].intercalate (ls ++ [[]]) := by
  induction ls with
  | nil => simp [List.intercalate]
  | cons a t ih =>
    cases t with
    | nil => simp [List.intercalate]
    | cons b t2 =>
      rw [List.map_cons, List.flatten_cons, ih]
      simp only [List.cons_append]
      rw [intercalate_cons₂]

lemma header_cells_safe :
    ∀ cell ∈ headerCells, ∀ c ∈ cell, c ≠ ',' ∧ c ≠ '\n' := by decide

lemma rowCells_safe (d : DRow) :
    ∀ cell ∈ rowCells d, ∀ c ∈ cell, c ≠ ',' ∧ c ≠ '\n' := by
  intro cell hcell c hc
  simp only [rowCells, List.mem_cons, List.not_mem_nil, or_false] at hcell
  rcases hcell with rfl | rfl | rfl | rfl | rfl | rfl | rfl | rfl
  · rcases mem_intChars _ c hc with h | h
    · exact cellChar_ne_sep (Or.inl h)
    · exact cellChar_ne_sep (Or.inr (Or.inr h))
  · exact cellChar_ne_sep (mem_q2Chars _ c hc)
  · exact cellChar_ne_sep (mem_q2Chars _ c hc)
  · exact cellChar_ne_sep (mem_q2Chars _ c hc)
  · exact cellChar_ne_sep (mem_q2Chars _ c hc)
  · rcases mem_intChars _ c hc with h | h
    · exact cellChar_ne_sep (Or.inl h)
    · exact cellChar_ne_sep (Or.inr (Or.inr h))
  · exact cellChar_ne_sep (mem_optQ2Chars _ c hc)
  · exact cellChar_ne_sep (mem_optQ2Chars _ c hc)

/-- Every line of the exported grid (header or data row) is a comma-joining
of cells whose characters are neither separators nor newlines. -/
lemma grid_line_safe (data : List DRow) :
    ∀ cells ∈ headerCells :: (display_data_sorted data).map rowCells,
      (∀ cell ∈ cells, ∀ c ∈ cell, c ≠ ',' ∧ c ≠ '\n') := by
  intro cells hcells
  rcases List.mem_cons.mp hcells with rfl | hcells
  · exact header_cells_safe
  · obtain ⟨r, _, rfl⟩ := List.mem_map.mp hcells
    exact rowCells_safe r

lemma csv_split_lines (data : List DRow) :
    List.splitOn '\n' (csvChars data) =
      ((headerCells :: (display_data_sorted data).map rowCells).map lineChars)
        ++ [[]] := by
  rw [csvChars,
    show (fun l : List (List Char) => lineChars l ++ ['\n']) =
      ((fun l : List Char => l ++ ['\n']) ∘ lineChars) from rfl,
    ← List.map_map, flatten_lines_eq]
  apply List.splitOn_intercalate
  · intro l hl
    rcases List.mem_append.mp hl with hl | hl
    · obtain ⟨cells, hcells, rfl⟩ := List.mem_map.mp hl
      intro hmem
      rcases mem_lineChars cells '\n' hmem with h | ⟨cell, hcell, hcc⟩
      · exact absurd h (by decide)
      · exact (grid_line_safe data cells hcells cell hcell '\n' hcc).2 rfl
    · simp at hl
      subst hl
      simp
  · simp

lemma splitOn_comma_line {cells : List (List Char)} (hne : cells ≠ [])
    (hsafe : ∀ cell ∈ cells, ∀ c ∈ cell, c ≠ ',' ∧ c ≠ '\n') :
    List.splitOn ',' (lineChars cells) = cells := by
  rw [lineChars]
  apply List.splitOn_intercalate cells ',' _ hne
  intro cell hcell hmem
  exact (hsafe cell hcell ',' hmem).1 rfl

lemma mem_display_is_rounded {data : List DRow} {r : DRow}
    (hr : r ∈ display_data_sorted data) : ∃ d0, r = roundRow d0 := by
  have hperm := List.perm_insertionSort dateDescOrder (display_data data)
  have hmem : r ∈ display_data data := hperm.mem_iff.mp hr
  obtain ⟨d0, _, rfl⟩ := List.mem_map.mp hmem
  exact ⟨d0, rfl⟩

lemma sequenceOpt_map_id (l : List DRow) (f : DRow → Option DRow)
    (h : ∀ a ∈ l, f a = some a) : sequenceOpt (l.map f) = some l := by
  induction l with
  | nil => rfl
  | cons a t ih =>
    rw [List.map_cons, h a (List.mem_cons_self _ _), sequenceOpt,
      ih (fun b hb => h b (List.mem_cons_of_mem _ hb))]
    rfl

/-! ### Claim theorems -/

/-- C1: for every fetched price series with at least 2 rows, `price_change`
equals the last row's close minus the second-to-last row's close, and
`price_change_pct` equals `price_change / priorClose × 100`; for a series
with fewer than 2 rows both are `0`. -/
theorem change_and_pct_formula (rows : List Row) :
    (∀ x y : Row, rows.getLast? = some x → rows[rows.length - 2]? = some y →
        2 ≤ rows.length →
      price_change rows = x.close - y.close ∧
      price_change_pct rows = (x.close - y.close) / y.close * 100) ∧
    (rows.length < 2 → price_change rows = 0 ∧ price_change_pct rows = 0) := by
  constructor
  · intro x y hx hy h2
    rw [List.getLast?_eq_getElem?] at hx
    have hc : price_change rows = x.close - y.close := by
      rw [price_change, if_pos (by omega), ilocNeg_eq, ilocNeg_eq, hx, hy]
      simp
    refine ⟨hc, ?_⟩
    rw [price_change_pct, if_pos (by omega), hc, ilocNeg_eq, hy]
    simp
  · intro h
    rw [price_change, price_change_pct, if_neg (by omega), if_neg (by omega)]
    simp

/-- Witness for C1 on a concrete two-row series. -/
theorem change_and_pct_formula_witness :
    price_change [wRow 100, wRow 105] = (wRow 105).close - (wRow 100).close ∧
    price_change_pct [wRow 100, wRow 105] =
      ((wRow 105).close - (wRow 100).close) / (wRow 100).close * 100 :=
  (change_and_pct_formula [wRow 100, wRow 105]).1 (wRow 105) (wRow 100)
    rfl rfl (by decide)

/-- C2: for every price series and every 0-indexed row `i`, `MA5` at row `i`
is defined iff `i ≥ 4` and then equals the unweighted mean of
`close[i-4..i]`; `MA25` at row `i` is defined iff `i ≥ 24` and then equals
the unweighted mean of `close[i-24..i]`; for smaller `i` the value is
undefined. -/
theorem ma_window_spec (rows : List Row) (i : Nat) (hi : i < rows.length) :
    maProp rows i := by
  have hc : (closes rows).length = rows.length := by simp [closes]
  have h5 := rollingMean_getD 5 (closes rows) i (by omega)
  have h25 := rollingMean_getD 25 (closes rows) i (by omega)
  have hs5 : windowSlice 5 i (closes rows) =
      ((closes rows).drop (i - 4)).take 5 := by
    rw [windowSlice, show i + 1 - 5 = i - 4 from by omega]
  have hs25 : windowSlice 25 i (closes rows) =
      ((closes rows).drop (i - 24)).take 25 := by
    rw [windowSlice, show i + 1 - 25 = i - 24 from by omega]
  refine ⟨?_, ?_, ?_, ?_⟩
  · rw [MA5, h5]
    constructor
    · intro hne
      by_contra hlt
      rw [if_neg (by omega)] at hne
      exact hne rfl
    · intro h4
      rw [if_pos (by omega)]
      simp
  · intro h4
    have hlen := windowSlice_len 5 i (closes rows) (by omega) (by omega)
    constructor
    · rw [MA5, h5, if_pos (by omega), ← hs5, hlen]
    · rw [← hs5]
      exact hlen
  · rw [MA25, h25]
    constructor
    · intro hne
      by_contra hlt
      rw [if_neg (by omega)] at hne
      exact hne rfl
    · intro h24
      rw [if_pos (by omega)]
      simp
  · intro h24
    have hlen := windowSlice_len 25 i (closes rows) (by omega) (by omega)
    constructor
    · rw [MA25, h25, if_pos (by omega), ← hs25, hlen]
    · rw [← hs25]
      exact hlen

/-- Witness for C2 on a concrete one-row series at row 0. -/
theorem ma_window_spec_witness : maProp [wRow 1] 0 :=
  ma_window_spec [wRow 1] 0 (by decide)

/-- C3: for every non-empty price series the displayed `periodHigh` is the
maximum of the `high` field over all rows and the displayed `periodLow` is
the minimum of the `low` field over all rows; hence `periodHigh` is `≥`
every row's high and `periodLow` is `≤` every row's low. -/
theorem period_extrema_spec (rows : List Row) (hne : rows ≠ []) :
    ∃ hi lo, periodHigh rows = some hi ∧ periodLow rows = some lo ∧
      (∃ r ∈ rows, r.high = hi) ∧ (∀ r ∈ rows, r.high ≤ hi) ∧
      (∃ r ∈ rows, r.low = lo) ∧ (∀ r ∈ rows, lo ≤ r.low) := by
  obtain ⟨hi, h1, h2, h3⟩ :=
    seriesMax_spec (rows.map Row.high) (by simpa using hne)
  obtain ⟨lo, g1, g2, g3⟩ :=
    seriesMin_spec (rows.map Row.low) (by simpa using hne)
  refine ⟨hi, lo, h1, g1, ?_, ?_, ?_, ?_⟩
  · obtain ⟨r, hr, hrE⟩ := List.mem_map.mp h2
    exact ⟨r, hr, hrE⟩
  · intro r hr
    exact h3 _ (List.mem_map_of_mem _ hr)
  · obtain ⟨r, hr, hrE⟩ := List.mem_map.mp g2
    exact ⟨r, hr, hrE⟩
  · intro r hr
    exact g3 _ (List.mem_map_of_mem _ hr)

/-- Witness for C3 on a concrete one-row series. -/
theorem period_extrema_spec_witness :
    ∃ hi lo, periodHigh [wRow 5] = some hi ∧ periodLow [wRow 5] = some lo ∧
      (∃ r ∈ [wRow 5], r.high = hi) ∧ (∀ r ∈ [wRow 5], r.high ≤ hi) ∧
      (∃ r ∈ [wRow 5], r.low = lo) ∧ (∀ r ∈ [wRow 5], lo ≤ r.low) :=
  period_extrema_spec [wRow 5] (List.cons_ne_nil _ _)

/-- C4: for every pair of input dates with `start ≥ end` the render cycle
halts at the validation error: the outcome is `validationError` for every
possible fetch behaviour `f`, so no fetch is consulted and no transform,
chart, table or CSV is produced. -/
theorem date_validation_blocks (ticker : String) (s e : Int) (f : FetchFun)
    (h : s ≥ e) : render ticker s e f = Outcome.validationError := by
  unfold render
  rw [if_pos h]

/-- Witness for C4 at concrete dates with `start > end`. -/
theorem date_validation_blocks_witness :
    render "AAPL" 5 3 wFetch = Outcome.validationError :=
  date_validation_blocks "AAPL" 5 3 wFetch (by decide)

/-- C5: the fetch returns a tagged outcome with no partial-success state:
`(some rows, companyName)` on a non-empty provider result, `(none, noDataMsg)`
on an empty result set, and `(none, errLabel ++ e)` — the stringified
exception text behind the fixed label — on any exception from the provider
call (whether it arises in the history request or the metadata lookup),
with no retry. -/
theorem fetch_tagged_outcome (hist : Except String (List Row))
    (info : Except String (Option String × Option String)) (ticker : String) :
    (∀ rows lN sN, hist = .ok rows → rows ≠ [] → info = .ok (lN, sN) →
        get_stock_data hist info ticker =
          (some rows, lN.getD (sN.getD ticker))) ∧
    (∀ rows, hist = .ok rows → rows = [] →
        get_stock_data hist info ticker = (none, noDataMsg)) ∧
    (∀ e, hist = .error e →
        get_stock_data hist info ticker = (none, errLabel ++ e)) ∧
    (∀ rows e, hist = .ok rows → rows ≠ [] → info = .error e →
        get_stock_data hist info ticker = (none, errLabel ++ e)) := by
  refine ⟨?_, ?_, ?_, ?_⟩
  · rintro rows lN sN rfl hne rfl
    simp [get_stock_data, hne]
  · rintro rows rfl rfl
    simp [get_stock_data]
  · rintro e rfl
    simp [get_stock_data]
  · rintro rows e rfl hne rfl
    simp [get_stock_data, hne]

/-- Witness for C5 on a concrete provider exception. -/
theorem fetch_tagged_outcome_witness :
    get_stock_data (.error "boom") (.ok (none, none)) "AAPL" =
      (none, errLabel ++ "boom") :=
  (fetch_tagged_outcome (.error "boom") (.ok (none, none)) "AAPL").2.2.1
    "boom" rfl

/-- C7: the presentation stage's renaming, rounding, column dropping and
descending sort are display-only; the stored frame after the render is the
fetched series with the MA columns added — projecting away the MA cells
returns the original rows, in their original ascending order with their
original (unrounded) field values — while the displayed table is a rounded,
re-sorted copy. -/
theorem display_transform_pure (rows : List Row) (name ticker : String)
    (s e : Int) :
    (runSuccess rows name ticker s e).stored.map DRow.row = rows ∧
    (runSuccess rows name ticker s e).stored = derive rows ∧
    (runSuccess rows name ticker s e).displayed =
      sortDisplay ((derive rows).map roundRow) :=
  ⟨derive_map_row rows, rfl, rfl⟩

/-- C9: when the processed ticker input is the empty string (and the dates
pass validation), the fetch is never consulted — the outcome is the help
screen for every fetch behaviour `f` — and no error is raised. -/
theorem empty_ticker_help (s e : Int) (f : FetchFun) (h : s < e) :
    render "" s e f = Outcome.help := by
  unfold render
  rw [if_neg (not_le.mpr h), if_pos rfl]

/-- Witness for C9 at concrete valid dates. -/
theorem empty_ticker_help_witness : render "" 0 1 wFetch = Outcome.help :=
  empty_ticker_help 0 1 wFetch (by decide)

/-- C10: on a successful fetch the company display name is resolved by
fallback — `longName` if present, else `shortName`, else the ticker symbol —
and a missing provider metadata name never causes a failure: the outcome is
still `(some rows, name)`. -/
theorem company_name_fallback (rows : List Row) (lN sN : Option String)
    (ticker : String) (hne : rows ≠ []) :
    (get_stock_data (.ok rows) (.ok (lN, sN)) ticker).1 = some rows ∧
    (get_stock_data (.ok rows) (.ok (lN, sN)) ticker).2 =
      lN.getD (sN.getD ticker) ∧
    (∀ n, lN = some n →
      (get_stock_data (.ok rows) (.ok (lN, sN)) ticker).2 = n) ∧
    (∀ n, lN = none → sN = some n →
      (get_stock_data (.ok rows) (.ok (lN, sN)) ticker).2 = n) ∧
    (lN = none → sN = none →
      (get_stock_data (.ok rows) (.ok (lN, sN)) ticker).2 = ticker) := by
  refine ⟨?_, ?_, ?_, ?_, ?_⟩
  · simp [get_stock_data, hne]
  · simp [get_stock_data, hne]
  · rintro n rfl
    simp [get_stock_data, hne]
  · rintro n rfl rfl
    simp [get_stock_data, hne]
  · rintro rfl rfl
    simp [get_stock_data, hne]

/-- C6: for every successful fetch, the exported CSV artifact is UTF-8 with a
byte-order mark (`EF BB BF` first), its first line carries exactly the
columns `Date, 始値, 高値, 安値, 終値, 出来高, 5日移動平均, 25日移動平均` (the display
labels), its data rows are sorted by date descending, and it is offered
under the filename `{ticker}_{start}_to_{end}.csv`. -/
theorem csv_artifact_format (rows : List Row) (name ticker : String)
    (s e : Int) :
    (runSuccess rows name ticker s e).csv = utf8sig (csvText (derive rows)) ∧
    (utf8sig (csvText (derive rows))).take 3 = [0xEF, 0xBB, 0xBF] ∧
    (List.splitOn '\n' (csvText (derive rows)).data).head? =
      some (lineChars headerCells) ∧
    displayHeader =
      ["Date", "始値", "高値", "安値", "終値", "出来高", "5日移動平均", "25日移動平均"] ∧
    List.Sorted dateDescOrder ((runSuccess rows name ticker s e).displayed) ∧
    (runSuccess rows name ticker s e).file =
      ticker ++ "_" ++ String.mk (intChars s) ++ "_to_" ++
        String.mk (intChars e) ++ ".csv" := by
  refine ⟨rfl, rfl, ?_, rfl, ?_, rfl⟩
  · have hdata : (csvText (derive rows)).data = csvChars (derive rows) := rfl
    rw [hdata, csv_split_lines, List.map_cons]
    rfl
  · exact List.sorted_insertionSort dateDescOrder _

/-- C8: round-trip — for every derived series, parsing the generated CSV text
back into rows reproduces exactly the displayed table values, i.e. the
numeric fields rounded to two decimal places in their sorted display order. -/
theorem csv_parse_round_trip (data : List DRow) :
    parseCsv (csvText data) = some (display_data_sorted data) := by
  have hdata : (csvText data).data = csvChars data := rfl
  rw [parseCsv, hdata, csv_split_lines, List.dropLast_concat, List.map_cons]
  show sequenceOpt ((((display_data_sorted data).map rowCells).map lineChars).map
      (fun r => parseRow (List.splitOn ',' r))) = some (display_data_sorted data)
  rw [List.map_map, List.map_map]
  refine sequenceOpt_map_id _ _ (fun r hr => ?_)
  obtain ⟨d0, rfl⟩ := mem_display_is_rounded hr
  show parseRow (List.splitOn ',' (lineChars (rowCells (roundRow d0)))) =
    some (roundRow d0)
  rw [splitOn_comma_line (by simp [rowCells]) (rowCells_safe _),
    parseRow_roundRow]

/-- Witness for C10 on a concrete fetch with only a `longName`. -/
theorem company_name_fallback_witness :
    (get_stock_data (.ok [wRow 1]) (.ok (some "Apple Inc.", none)) "AAPL").2 =
      (some "Apple Inc.").getD ((none : Option String).getD "AAPL") :=
  (company_name_fallback [wRow 1] (some "Apple Inc.") none "AAPL"
    (List.cons_ne_nil _ _)).2.1

end StockApp
